import Mathlib

/-!
Verification development for the Resume-RAG repository.

The file shallowly embeds, in Lean 4:
  * module src/rag_resume/changeset.py — the ChangeSet algebra
    (NoChange / OverwriteChange / ReducerChange and apply_changeset);
  * the state-graph execution engine used through the langchain backend
    (src/rag_resume/agentic/backends/langchain/graph.py); the engine
    itself lives in the third-party langgraph library, absent from the
    sources, so it is modelled from the specification of the execution
    semantics (superstep scheduling with fan-out against the pre-wave
    state, merge of updates through the declared per-field reducer,
    dynamic edges decided on the merged state, termination on END);
  * the concrete test graphs of tests/unit/agentic/backend/test_graph.py
    used to exercise the engine;
  * the lookup step of src/rag_resume/pipelines/resume_builder.py with a
    model of the dataclasses.replace keyword check.
-/

namespace RagResume

/-! ## ChangeSet algebra (src/rag_resume/changeset.py) -/

/-- Embedding of the three ChangeSet dataclass variants.  The reducer of a
ReducerChange is an arbitrary function on the carried type. -/
inductive ChangeSet (T : Type) where
  | NoChange : ChangeSet T
  | OverwriteChange (new : T) : ChangeSet T
  | ReducerChange (reducer : T → T) : ChangeSet T

/-- Embedding of the apply methods of the three variants: NoChange.apply
returns the current value, OverwriteChange.apply returns the stored value,
ReducerChange.apply returns reducer(current). -/
def ChangeSet.apply {T : Type} : ChangeSet T → T → T
  | .NoChange, current => current
  | .OverwriteChange new, _ => new
  | .ReducerChange reducer, current => reducer current

/-- Effect-instrumented embedding of ChangeSet.apply: alongside the result
it records the list of arguments on which the stored reducer is invoked.
The source bodies call the reducer exactly at the call site
self.reducer(current) of ReducerChange.apply and nowhere else. -/
def ChangeSet.applyTraced {T : Type} : ChangeSet T → T → T × List T
  | .NoChange, current => (current, [])
  | .OverwriteChange new, _ => (new, [])
  | .ReducerChange reducer, current => (reducer current, [current])

/-- Embedding of the default value of the default_change keyword of
apply_changeset: lambda current: OverwriteChange(current). -/
def defaultOverwrite {T : Type} : T → ChangeSet T :=
  fun current => ChangeSet.OverwriteChange current

/-- Message of the ValueError raised by apply_changeset on an unrecognized
input when raise_exception_on_unrecognized is set. -/
def unrecognizedChangeMsg : String :=
  "New value was expected to be a ChangeSet type(NoChange, OverwriteChange, ReducerChange)"

/-- Embedding of apply_changeset.  The Python parameter new has the dynamic
type ChangeSet[T] | T; it is embedded as a sum, Sum.inl for the values
matching one of the three ChangeSet variants and Sum.inr for every other
value.  The raising path is embedded as Except.error carrying the message
of the ValueError. -/
def apply_changeset {T : Type} (current : T) (new : ChangeSet T ⊕ T)
    (default_change : T → ChangeSet T)
    (raise_exception_on_unrecognized : Bool) : Except String T :=
  match new with
  | .inl c => .ok (c.apply current)
  | .inr v =>
    if raise_exception_on_unrecognized then
      .error unrecognizedChangeMsg
    else
      .ok ((default_change v).apply current)

/-- Effect-instrumented embedding of apply_changeset: alongside the result
it counts how many times the default_change callable is invoked.  The
source invokes default_change exactly once, on the fall-through path where
new is not a ChangeSet and the raise flag is unset. -/
def apply_changesetCounting {T : Type} (current : T) (new : ChangeSet T ⊕ T)
    (default_change : T → ChangeSet T)
    (raise_exception_on_unrecognized : Bool) : Except String T × Nat :=
  match new with
  | .inl c => (.ok (c.apply current), 0)
  | .inr v =>
    if raise_exception_on_unrecognized then
      (.error unrecognizedChangeMsg, 0)
    else
      (.ok ((default_change v).apply current), 1)

/-! ## Resume builder lookup (src/rag_resume/pipelines/resume_builder.py) -/

/-- Embedding of ResumeBuilderState: a dataclass with fields description,
experience and bullet_points (the optional list fields embed None as
Option.none). -/
structure ResumeBuilderState where
  description : String
  experience : Option (List String)
  bullet_points : Option (List String)
deriving DecidableEq, Repr

/-- Dynamic values passed as keyword arguments to dataclasses.replace on a
ResumeBuilderState: a string or an optional list of strings. -/
inductive RBValue where
  | strVal (s : String)
  | listVal (l : Option (List String))
deriving DecidableEq, Repr

/-- Declared field names of the ResumeBuilderState dataclass, in
declaration order. -/
def resumeBuilderFields : List String :=
  ["description", "experience", "bullet_points"]

/-- Assignment of one keyword argument to a ResumeBuilderState field, used
by the model of dataclasses.replace; a keyword matching a declared field
updates that field (a value of the wrong dynamic shape leaves the field,
which the typed Python code never produces). -/
def setRBField (s : ResumeBuilderState) (kv : String × RBValue) : ResumeBuilderState :=
  match kv with
  | ("description", .strVal d) => { s with description := d }
  | ("experience", .listVal l) => { s with experience := l }
  | ("bullet_points", .listVal l) => { s with bullet_points := l }
  | _ => s

/-- Model of dataclasses.replace on a ResumeBuilderState: replace calls the
class constructor with the existing fields overridden by the keyword
arguments, so a keyword that is not a declared field raises a TypeError
(unexpected keyword argument); otherwise the named fields are replaced. -/
def dataclassesReplace (s : ResumeBuilderState)
    (changes : List (String × RBValue)) : Except String ResumeBuilderState :=
  if changes.all (fun kv => resumeBuilderFields.contains kv.1) then
    .ok (changes.foldl setRBField s)
  else
    .error "TypeError: unexpected keyword argument"

/-- Embedding of ResumeBuilderPipeline.lookup.  The vector store is an
external collaborator, abstracted as a function from the query string to
the list of contents of the returned documents.  The body computes the
document contents for state.description and calls dataclasses.replace with
the single keyword exprience (sic). -/
def ResumeBuilderPipeline.lookup (vectorStoreLookup : String → List String)
    (state : ResumeBuilderState) : Except String ResumeBuilderState :=
  let exprience_docs := vectorStoreLookup state.description
  dataclassesReplace state [("exprience", RBValue.listVal (some exprience_docs))]

/-! ## Graph topology and execution engine

The topology types mirror src/rag_resume/agentic/graphs/edges.py.  The
execution engine compiled by _build_lang_graph lives in the third-party
langgraph library, which is not part of this repository, so its run-time
behaviour is modelled from the specification (section 4.4): supersteps in
which every active node's action is invoked against the same pre-wave
state, updates merged in order onto the accumulated state through the
per-field apply-changeset reducer, static edges yielding unconditional
successors, dynamic edges decided once against the merged state, and
termination when only END remains active. -/

/-- Node identifiers of a built graph: the two sentinels of
CommonGraphSteps plus the workflow's own step enumeration. -/
inductive NodeId (S : Type) where
  | START : NodeId S
  | END : NodeId S
  | step (s : S) : NodeId S
deriving DecidableEq, Repr

/-- Embedding of GraphEdgeLike: a GraphEdge carries fixed start and end
nodes; a DynamicGraphEdge carries a start node and the decision callable
returning the next node from the state. -/
inductive GraphEdgeLike (S State : Type) where
  | static (start stop : NodeId S) : GraphEdgeLike S State
  | dynamic (start : NodeId S) (decide : State → NodeId S) : GraphEdgeLike S State

/-- Embedding of the data a GraphProtocol implementation supplies to
_build_lang_graph: the edge list and the per-step action
(implementation_for).  An action returns a state-update value which the
engine merges into the accumulated state. -/
structure GraphImpl (S State Update : Type) where
  graph_edges : List (GraphEdgeLike S State)
  implementation_for : S → State → Update

/-- Modelled from the spec: successor nodes of one node in one superstep —
every static edge out of the node contributes its end node, and every
dynamic edge out of the node contributes the node its decision function
returns on the supplied state. -/
def targetsFrom {S State : Type} [DecidableEq S]
    (edges : List (GraphEdgeLike S State)) (node : NodeId S) (st : State) :
    List (NodeId S) :=
  edges.foldr
    (fun e acc =>
      match e with
      | .static a b => if a = node then b :: acc else acc
      | .dynamic a f => if a = node then f st :: acc else acc)
    []

/-- First-occurrence deduplication, used to model that a node activated by
several predecessors of the same wave runs once (fan-in barrier). -/
def dedupFirst {α : Type} [DecidableEq α] (l : List α) : List α :=
  l.foldl (fun acc a => if a ∈ acc then acc else acc ++ [a]) []

/-- Active steps of a frontier: the step nodes, with the END sentinel (and
a stray START) dropped. -/
def waveOf {S : Type} : List (NodeId S) → List S :=
  List.filterMap fun n =>
    match n with
    | .step s => some s
    | _ => none

/-- Frontier of the next superstep: successors of every node just
executed, computed on the merged post-wave state, deduplicated. -/
def nextFrontier {S State Update : Type} [DecidableEq S]
    (g : GraphImpl S State Update) (wave : List S) (st : State) :
    List (NodeId S) :=
  dedupFirst (wave.flatMap fun s => targetsFrom g.graph_edges (.step s) st)

/-- Modelled from the spec: one superstep of the compiled langgraph
engine — every active action is invoked against the same pre-wave state
(fan-out), the updates are folded into the state in wave order, and one
trace entry (step, state it received) is recorded per invocation. -/
def superstep {S State Update : Type}
    (g : GraphImpl S State Update) (merge : State → Update → State)
    (wave : List S) (st : State) : State × List (S × State) :=
  ((wave.map (fun a => g.implementation_for a st)).foldl merge st,
    wave.map fun a => (a, st))

/-- Modelled from the spec: the superstep loop of the compiled langgraph
engine, with fuel bounding the number of supersteps (the engine itself has
no iteration bound; a run needing more supersteps than the fuel is mapped
to none). -/
def lgRun {S State Update : Type} [DecidableEq S]
    (g : GraphImpl S State Update) (merge : State → Update → State) :
    Nat → List (NodeId S) → State → Option (State × List (S × State))
  | fuel, frontier, st =>
    match waveOf frontier with
    | [] => some (st, [])
    | s :: rest =>
      match fuel with
      | 0 => none
      | fuel' + 1 =>
        let p := superstep g merge (s :: rest) st
        match lgRun g merge fuel' (nextFrontier g (s :: rest) p.1) p.1 with
        | none => none
        | some (fin, tr) => some (fin, p.2 ++ tr)

/-- Sequential completion of one wave of tasks, as performed by a
cooperative scheduler: each task reads the pre-wave snapshot, and its
update is merged into the accumulator as it completes. -/
def processWave {S State Update : Type}
    (g : GraphImpl S State Update) (merge : State → Update → State)
    (preState : State) : List S → State → State × List (S × State)
  | [], acc => (acc, [])
  | s :: rest, acc =>
    let r := processWave g merge preState rest (merge acc (g.implementation_for s preState))
    (r.1, (s, preState) :: r.2)

/-- Modelled from the spec: the asynchronous form of the engine loop, in
which the tasks of a wave complete one at a time under the cooperative
scheduler and each completed update is merged immediately. -/
def lgRunAsync {S State Update : Type} [DecidableEq S]
    (g : GraphImpl S State Update) (merge : State → Update → State) :
    Nat → List (NodeId S) → State → Option (State × List (S × State))
  | fuel, frontier, st =>
    match waveOf frontier with
    | [] => some (st, [])
    | s :: rest =>
      match fuel with
      | 0 => none
      | fuel' + 1 =>
        let p := processWave g merge st (s :: rest) st
        match lgRunAsync g merge fuel' (nextFrontier g (s :: rest) p.1) p.1 with
        | none => none
        | some (fin, tr) => some (fin, p.2 ++ tr)

/-- Initial frontier of a run: the successors of START, with dynamic edges
out of START decided on the initial state. -/
def initialFrontier {S State Update : Type} [DecidableEq S]
    (g : GraphImpl S State Update) (st : State) : List (NodeId S) :=
  dedupFirst (targetsFrom g.graph_edges .START st)

/-- Embedding of LangchainGraph.invoke: run the compiled graph from START
on the initial state and return the final state, here together with the
invocation trace and under the explicit superstep fuel. -/
def lgInvoke {S State Update : Type} [DecidableEq S]
    (g : GraphImpl S State Update) (merge : State → Update → State)
    (fuel : Nat) (st : State) : Option (State × List (S × State)) :=
  lgRun g merge fuel (initialFrontier g st) st

/-- Embedding of LangchainGraph.async_invoke driven to completion. -/
def lgAsyncInvoke {S State Update : Type} [DecidableEq S]
    (g : GraphImpl S State Update) (merge : State → Update → State)
    (fuel : Nat) (st : State) : Option (State × List (S × State)) :=
  lgRunAsync g merge fuel (initialFrontier g st) st

/-- Embedding of LangchainGraph.batch: one independent run per input
state, results in input order. -/
def lgBatch {S State Update : Type} [DecidableEq S]
    (g : GraphImpl S State Update) (merge : State → Update → State)
    (fuel : Nat) (states : List State) : List (Option (State × List (S × State))) :=
  states.map (lgInvoke g merge fuel)

/-- Embedding of LangchainGraph.async_batch: one independent asynchronous
run per input state, results in input order. -/
def lgAsyncBatch {S State Update : Type} [DecidableEq S]
    (g : GraphImpl S State Update) (merge : State → Update → State)
    (fuel : Nat) (states : List State) : List (Option (State × List (S × State))) :=
  states.map (lgAsyncInvoke g merge fuel)

/-- Modelled from the spec: a batch whose elements are executed in an
arbitrary internal completion order (the schedule), each result being
written into the slot of its input index; the returned sequence reads the
slots in input order. -/
def lgBatchScheduled {S State Update : Type} [DecidableEq S]
    (g : GraphImpl S State Update) (merge : State → Update → State)
    (fuel : Nat) (states : List State) (sched : List Nat) :
    List (Option (Option (State × List (S × State)))) :=
  sched.foldl
    (fun slots i =>
      match states[i]? with
      | none => slots
      | some st => slots.set i (some (lgInvoke g merge fuel st)))
    (List.replicate states.length none)

/-! ## Test graphs (tests/unit/agentic/backend/test_graph.py) -/

/-- Extraction of the value of an Except, with a fallback for the error
case (the merge of a ChangeSet-valued update never takes the fallback). -/
def okOr {T : Type} (e : Except String T) (fallback : T) : T :=
  match e with
  | .ok v => v
  | .error _ => fallback

/-- Embedding of SimpleTestGraphState: a visit counter (a Python int,
embedded as Int) and a should_end flag. -/
structure SimpleTestGraphState where
  visits : Int
  should_end : Bool
deriving DecidableEq, Repr

/-- Embedding of SimpleTestGraphUpdate: one ChangeSet per state field. -/
structure SimpleTestGraphUpdate where
  visits : ChangeSet Int
  should_end : ChangeSet Bool

/-- Per-field merge of an update into a SimpleTestGraphState, as the
compiled graph performs it through the apply_changeset reducer annotated
on each field (the update fields are ChangeSet values, hence Sum.inl). -/
def mergeSimple (s : SimpleTestGraphState) (u : SimpleTestGraphUpdate) :
    SimpleTestGraphState :=
  { visits := okOr (apply_changeset s.visits (Sum.inl u.visits) defaultOverwrite false) s.visits,
    should_end := okOr (apply_changeset s.should_end (Sum.inl u.should_end) defaultOverwrite false) s.should_end }

/-- Embedding of SimpleTestGraphStep. -/
inductive SimpleTestGraphStep where
  | One
  | Two
  | Three
deriving DecidableEq, Repr

/-- Embedding of iterate_state: every test node returns an update that
increments visits by one through a ReducerChange and leaves should_end
untouched (the dataclass default NoChange). -/
def iterate_state (_ : SimpleTestGraphState) : SimpleTestGraphUpdate :=
  { visits := ChangeSet.ReducerChange (fun current => current + 1),
    should_end := ChangeSet.NoChange }

/-- Embedding of the graph of simple_graph_test_case:
START -> One -> Two -> Three -> END, every node running iterate_state. -/
def simpleGraph : GraphImpl SimpleTestGraphStep SimpleTestGraphState SimpleTestGraphUpdate where
  graph_edges :=
    [ .static .START (.step .One),
      .static (.step .One) (.step .Two),
      .static (.step .Two) (.step .Three),
      .static (.step .Three) .END ]
  implementation_for := fun _ => iterate_state

/-- Embedding of the graph of dynamic_simple_graph_test_case: a dynamic
edge out of START choosing END when should_end holds and One otherwise,
then One -> Two -> Three -> END. -/
def dynamicGraph : GraphImpl SimpleTestGraphStep SimpleTestGraphState SimpleTestGraphUpdate where
  graph_edges :=
    [ .dynamic .START (fun state => if state.should_end then .END else .step .One),
      .static (.step .One) (.step .Two),
      .static (.step .Two) (.step .Three),
      .static (.step .Three) .END ]
  implementation_for := fun _ => iterate_state

/-- Embedding of the graph of looped_graph_case, parameterized by the
initial visit count captured by the termination predicate:
START -> One, a dynamic edge out of One choosing END once
visits > startVisits + 3 and Two otherwise, then Two -> Three -> One. -/
def loopedGraph (startVisits : Int) :
    GraphImpl SimpleTestGraphStep SimpleTestGraphState SimpleTestGraphUpdate where
  graph_edges :=
    [ .static .START (.step .One),
      .dynamic (.step .One)
        (fun state => if state.visits > startVisits + 3 then .END else .step .Two),
      .static (.step .Two) (.step .Three),
      .static (.step .Three) (.step .One) ]
  implementation_for := fun _ => iterate_state

/-- Embedding of the graph of parallel_graph_case as declared in the test:
two static edges out of START (to One and to Two), then Two -> Three and
Three -> END. -/
def parallelGraph : GraphImpl SimpleTestGraphStep SimpleTestGraphState SimpleTestGraphUpdate where
  graph_edges :=
    [ .static .START (.step .One),
      .static .START (.step .Two),
      .static (.step .Two) (.step .Three),
      .static (.step .Three) .END ]
  implementation_for := fun _ => iterate_state

/-- Variant of the parallel graph with both branches explicitly joining at
Three (edges One -> Three and Two -> Three), matching the description
"START to A and START to B, both to C, C to END" word for word. -/
def parallelGraphJoin : GraphImpl SimpleTestGraphStep SimpleTestGraphState SimpleTestGraphUpdate where
  graph_edges :=
    [ .static .START (.step .One),
      .static .START (.step .Two),
      .static (.step .One) (.step .Three),
      .static (.step .Two) (.step .Three),
      .static (.step .Three) .END ]
  implementation_for := fun _ => iterate_state

/-! ## Shared lemmas -/

/-- Adding one unit of fuel preserves a successful run. -/
theorem lgRun_succ_fuel {S State Update : Type} [DecidableEq S]
    (g : GraphImpl S State Update) (merge : State → Update → State) :
    ∀ (fuel : Nat) (frontier : List (NodeId S)) (st : State) r,
      lgRun g merge fuel frontier st = some r →
      lgRun g merge (fuel + 1) frontier st = some r := by
  intro fuel
  induction fuel with
  | zero =>
    intro frontier st r h
    rw [lgRun] at h ⊢
    cases hw : waveOf frontier with
    | nil => simpa [hw] using h
    | cons s rest => simp [hw] at h
  | succ f ih =>
    intro frontier st r h
    rw [lgRun] at h ⊢
    cases hw : waveOf frontier with
    | nil => simpa [hw] using h
    | cons s rest =>
      simp only [hw] at h ⊢
      split at h
      · exact absurd h (by simp)
      · rename_i fin tr hr
        rw [ih _ _ _ hr]
        exact h

/-- Adding any amount of fuel preserves a successful run. -/
theorem lgRun_add_fuel {S State Update : Type} [DecidableEq S]
    (g : GraphImpl S State Update) (merge : State → Update → State)
    (fuel k : Nat) (frontier : List (NodeId S)) (st : State) (r)
    (h : lgRun g merge fuel frontier st = some r) :
    lgRun g merge (fuel + k) frontier st = some r := by
  induction k with
  | zero => simpa using h
  | succ m ih => exact lgRun_succ_fuel g merge (fuel + m) frontier st r ih

/-- Adding fuel preserves a successful invoke. -/
theorem lgInvoke_add_fuel {S State Update : Type} [DecidableEq S]
    (g : GraphImpl S State Update) (merge : State → Update → State)
    (fuel k : Nat) (st : State) (r)
    (h : lgInvoke g merge fuel st = some r) :
    lgInvoke g merge (fuel + k) st = some r :=
  lgRun_add_fuel g merge fuel k (initialFrontier g st) st r h

/-- Completing the tasks of one wave one at a time, merging as each
completes, gives the same merged state and the same trace as the atomic
superstep: every task reads the pre-wave snapshot either way. -/
theorem processWave_eq_superstep {S State Update : Type}
    (g : GraphImpl S State Update) (merge : State → Update → State)
    (pre : State) :
    ∀ (wave : List S) (acc : State),
      processWave g merge pre wave acc =
        ((wave.map (fun a => g.implementation_for a pre)).foldl merge acc,
          wave.map fun a => (a, pre)) := by
  intro wave
  induction wave with
  | nil => intro acc; rfl
  | cons s rest ih =>
    intro acc
    rw [processWave, ih]
    simp

/-- Equivalence of the asynchronous and the synchronous engine loops. -/
theorem lgRunAsync_eq_lgRun {S State Update : Type} [DecidableEq S]
    (g : GraphImpl S State Update) (merge : State → Update → State) :
    ∀ (fuel : Nat) (frontier : List (NodeId S)) (st : State),
      lgRunAsync g merge fuel frontier st = lgRun g merge fuel frontier st := by
  intro fuel
  induction fuel with
  | zero =>
    intro frontier st
    rw [lgRun, lgRunAsync]
  | succ f ih =>
    intro frontier st
    rw [lgRun, lgRunAsync]
    cases hw : waveOf frontier with
    | nil => simp
    | cons s rest =>
      simp only
      have hp : processWave g merge st (s :: rest) st = superstep g merge (s :: rest) st := by
        rw [processWave_eq_superstep, superstep]
      rw [hp, ih]

/-! ## Claim theorems -/

/-- C1: apply_changeset returns c.apply(x) for every recognized ChangeSet
variant c regardless of the default_change and raise flags; for a
non-ChangeSet value v with the raise flag unset it returns
OverwriteChange(v).apply(x) = v under the default default_change, and
default_change(v).apply(x) when a custom default_change is supplied. -/
theorem apply_changeset_dispatch_and_default {T : Type} (x : T) :
    (∀ (c : ChangeSet T) (d : T → ChangeSet T) (b : Bool),
        apply_changeset x (Sum.inl c) d b = .ok (c.apply x)) ∧
    (∀ v : T, apply_changeset x (Sum.inr v) defaultOverwrite false = .ok v) ∧
    (∀ (v : T) (d : T → ChangeSet T),
        apply_changeset x (Sum.inr v) d false = .ok ((d v).apply x)) :=
  ⟨fun _ _ _ => rfl, fun _ => rfl, fun _ _ => rfl⟩

/-- C2: NoChange.apply is the identity, OverwriteChange(y).apply is
constantly y, ReducerChange(reducer).apply returns reducer(x); the traced
apply shows the reducer is invoked exactly once, on x, and the other two
variants invoke no reducer. -/
theorem changeset_variant_laws {T : Type} (x y : T) (reducer : T → T) :
    (ChangeSet.NoChange : ChangeSet T).apply x = x ∧
    (ChangeSet.OverwriteChange y).apply x = y ∧
    (ChangeSet.ReducerChange reducer).apply x = reducer x ∧
    (ChangeSet.ReducerChange reducer).applyTraced x = (reducer x, [x]) ∧
    (ChangeSet.NoChange : ChangeSet T).applyTraced x = (x, []) ∧
    (ChangeSet.OverwriteChange y).applyTraced x = (y, []) :=
  ⟨rfl, rfl, rfl, rfl, rfl, rfl⟩

/-- C3: with the raise flag set, apply_changeset on a non-ChangeSet value
fails with the unrecognized-change ValueError for every default_change,
and the counting model shows default_change is invoked zero times on that
path; the counting model agrees with apply_changeset on every input. -/
theorem apply_changeset_strict_path {T : Type} (x v : T) (d : T → ChangeSet T) :
    apply_changeset x (Sum.inr v) d true = .error unrecognizedChangeMsg ∧
    apply_changesetCounting x (Sum.inr v) d true = (.error unrecognizedChangeMsg, 0) ∧
    (∀ (new : ChangeSet T ⊕ T) (b : Bool),
        (apply_changesetCounting x new d b).1 = apply_changeset x new d b) := by
  refine ⟨rfl, rfl, fun new b => ?_⟩
  cases new <;> cases b <;> rfl

/-- C10: ResumeBuilderPipeline.lookup fails for every vector store and
every state: it calls dataclasses.replace with the keyword exprience,
which is not among the declared fields of ResumeBuilderState, so the
replace raises a TypeError instead of producing an updated state. -/
theorem resume_builder_lookup_always_fails
    (vectorStoreLookup : String → List String) (state : ResumeBuilderState) :
    ResumeBuilderPipeline.lookup vectorStoreLookup state =
      .error "TypeError: unexpected keyword argument" :=
  rfl

/-- C4: on the three-node linear graph START-One-Two-Three-END, invoke
from visits = n returns visits = n + 3, and the trace shows each node
invoked exactly once, receiving exactly its predecessor's output state
(One on n, Two on n + 1, Three on n + 2), for every sufficient superstep
fuel. -/
theorem sequential_graph_run (n : Int) (b : Bool) (fuel : Nat) (h : 3 ≤ fuel) :
    lgInvoke simpleGraph mergeSimple fuel ⟨n, b⟩ =
      some (⟨n + 3, b⟩,
        [(.One, ⟨n, b⟩), (.Two, ⟨n + 1, b⟩), (.Three, ⟨n + 2, b⟩)]) := by
  have base : lgInvoke simpleGraph mergeSimple 3 ⟨n, b⟩ =
      some (⟨n + 3, b⟩,
        [(.One, ⟨n, b⟩), (.Two, ⟨n + 1, b⟩), (.Three, ⟨n + 2, b⟩)]) := by
    simp [lgInvoke, lgRun, initialFrontier, targetsFrom, dedupFirst, nextFrontier,
      waveOf, simpleGraph, iterate_state, mergeSimple, apply_changeset,
      ChangeSet.apply, okOr, defaultOverwrite, superstep]
    omega
  have hk : fuel = 3 + (fuel - 3) := by omega
  rw [hk]
  exact lgInvoke_add_fuel _ _ 3 (fuel - 3) _ _ base

/-- C4 witness: the sequential graph run evaluated at n = 0. -/
theorem sequential_graph_run_witness :
    lgInvoke simpleGraph mergeSimple 3 ⟨0, false⟩ =
      some (⟨0 + 3, false⟩,
        [(.One, ⟨0, false⟩), (.Two, ⟨0 + 1, false⟩), (.Three, ⟨0 + 2, false⟩)]) :=
  sequential_graph_run 0 false 3 (by decide)

/-- C5: on the graph whose dynamic START edge chooses END when should_end
holds and One otherwise, invoke with should_end = true returns the initial
state with no action executed (empty trace), and invoke with
should_end = false behaves exactly as the sequential three-node case. -/
theorem dynamic_graph_run (n : Int) (fuel : Nat) (h : 3 ≤ fuel) :
    lgInvoke dynamicGraph mergeSimple fuel ⟨n, true⟩ = some (⟨n, true⟩, []) ∧
    lgInvoke dynamicGraph mergeSimple fuel ⟨n, false⟩ =
      some (⟨n + 3, false⟩,
        [(.One, ⟨n, false⟩), (.Two, ⟨n + 1, false⟩), (.Three, ⟨n + 2, false⟩)]) := by
  constructor
  · rw [lgInvoke, lgRun]
    simp [initialFrontier, targetsFrom, dedupFirst, waveOf, dynamicGraph]
  · have base : lgInvoke dynamicGraph mergeSimple 3 ⟨n, false⟩ =
        some (⟨n + 3, false⟩,
          [(.One, ⟨n, false⟩), (.Two, ⟨n + 1, false⟩), (.Three, ⟨n + 2, false⟩)]) := by
      simp [lgInvoke, lgRun, initialFrontier, targetsFrom, dedupFirst, nextFrontier,
        waveOf, dynamicGraph, iterate_state, mergeSimple, apply_changeset,
        ChangeSet.apply, okOr, defaultOverwrite, superstep]
      omega
    have hk : fuel = 3 + (fuel - 3) := by omega
    rw [hk]
    exact lgInvoke_add_fuel _ _ 3 (fuel - 3) _ _ base

/-- C5 witness: the dynamic graph evaluated at n = 0 and fuel 3. -/
theorem dynamic_graph_run_witness :
    lgInvoke dynamicGraph mergeSimple 3 ⟨0, true⟩ = some (⟨0, true⟩, []) ∧
    lgInvoke dynamicGraph mergeSimple 3 ⟨0, false⟩ =
      some (⟨0 + 3, false⟩,
        [(.One, ⟨0, false⟩), (.Two, ⟨0 + 1, false⟩), (.Three, ⟨0 + 2, false⟩)]) :=
  dynamic_graph_run 0 3 (by decide)

/-- C9: for every graph, merge operation, fuel and initial state, the
synchronous invoke and the asynchronous invoke driven to completion return
the same result — the two engine loops are observationally equivalent. -/
theorem sync_async_invoke_equiv {S State Update : Type} [DecidableEq S]
    (g : GraphImpl S State Update) (merge : State → Update → State)
    (fuel : Nat) (st : State) :
    lgAsyncInvoke g merge fuel st = lgInvoke g merge fuel st := by
  rw [lgAsyncInvoke, lgInvoke, lgRunAsync_eq_lgRun]

/-- C6: on the cyclic graph START-One, One choosing END once
visits > n + 3 and Two otherwise, Two-Three, Three-One, a run from
visits = n terminates with visits = n + 4; the trace shows One invoked
exactly twice (on n and on n + 3), Two exactly once (on n + 1) and Three
exactly once (on n + 2), for every sufficient superstep fuel — the cycle
is bounded only by the state-carried counter. -/
theorem looped_graph_run (n : Int) (b : Bool) (fuel : Nat) (h : 4 ≤ fuel) :
    lgInvoke (loopedGraph n) mergeSimple fuel ⟨n, b⟩ =
      some (⟨n + 4, b⟩,
        [(.One, ⟨n, b⟩), (.Two, ⟨n + 1, b⟩), (.Three, ⟨n + 2, b⟩), (.One, ⟨n + 3, b⟩)]) := by
  have base : lgInvoke (loopedGraph n) mergeSimple 4 ⟨n, b⟩ =
      some (⟨n + 4, b⟩,
        [(.One, ⟨n, b⟩), (.Two, ⟨n + 1, b⟩), (.Three, ⟨n + 2, b⟩), (.One, ⟨n + 3, b⟩)]) := by
    simp [lgInvoke, lgRun, initialFrontier, targetsFrom, dedupFirst, nextFrontier,
      waveOf, loopedGraph, iterate_state, mergeSimple, apply_changeset,
      ChangeSet.apply, okOr, defaultOverwrite, superstep,
      show ¬(n + 1 > n + 3) from by omega,
      show n + 1 + 1 + 1 + 1 > n + 3 from by omega]
    omega
  have hk : fuel = 4 + (fuel - 4) := by omega
  rw [hk]
  exact lgInvoke_add_fuel _ _ 4 (fuel - 4) _ _ base

/-- C6 witness: the looped graph evaluated at n = 0 and fuel 4. -/
theorem looped_graph_run_witness :
    lgInvoke (loopedGraph 0) mergeSimple 4 ⟨0, false⟩ =
      some (⟨0 + 4, false⟩,
        [(.One, ⟨0, false⟩), (.Two, ⟨0 + 1, false⟩),
          (.Three, ⟨0 + 2, false⟩), (.One, ⟨0 + 3, false⟩)]) :=
  looped_graph_run 0 false 4 (by decide)

/-- C7: on the fan-out graph with static edges START-One and START-Two
(both as declared in the test case and in the variant with the explicit
joins One-Three and Two-Three), One and Two are each invoked exactly once
against the same pre-fan-out state visits = n, Three is invoked exactly
once, after both, on the state holding both branches' increments
(visits = n + 2), and the final state carries all three increments. -/
theorem parallel_graph_run (n : Int) (b : Bool) (fuel : Nat) (h : 2 ≤ fuel) :
    lgInvoke parallelGraph mergeSimple fuel ⟨n, b⟩ =
      some (⟨n + 3, b⟩,
        [(.One, ⟨n, b⟩), (.Two, ⟨n, b⟩), (.Three, ⟨n + 2, b⟩)]) ∧
    lgInvoke parallelGraphJoin mergeSimple fuel ⟨n, b⟩ =
      some (⟨n + 3, b⟩,
        [(.One, ⟨n, b⟩), (.Two, ⟨n, b⟩), (.Three, ⟨n + 2, b⟩)]) := by
  have hk : fuel = 2 + (fuel - 2) := by omega
  constructor
  · have base : lgInvoke parallelGraph mergeSimple 2 ⟨n, b⟩ =
        some (⟨n + 3, b⟩,
          [(.One, ⟨n, b⟩), (.Two, ⟨n, b⟩), (.Three, ⟨n + 2, b⟩)]) := by
      simp [lgInvoke, lgRun, initialFrontier, targetsFrom, dedupFirst, nextFrontier,
        waveOf, parallelGraph, iterate_state, mergeSimple, apply_changeset,
        ChangeSet.apply, okOr, defaultOverwrite, superstep]
      omega
    rw [hk]
    exact lgInvoke_add_fuel _ _ 2 (fuel - 2) _ _ base
  · have base : lgInvoke parallelGraphJoin mergeSimple 2 ⟨n, b⟩ =
        some (⟨n + 3, b⟩,
          [(.One, ⟨n, b⟩), (.Two, ⟨n, b⟩), (.Three, ⟨n + 2, b⟩)]) := by
      simp [lgInvoke, lgRun, initialFrontier, targetsFrom, dedupFirst, nextFrontier,
        waveOf, parallelGraphJoin, iterate_state, mergeSimple, apply_changeset,
        ChangeSet.apply, okOr, defaultOverwrite, superstep]
      omega
    rw [hk]
    exact lgInvoke_add_fuel _ _ 2 (fuel - 2) _ _ base

/-- C7 witness: both fan-out graphs evaluated at n = 0 and fuel 2. -/
theorem parallel_graph_run_witness :
    lgInvoke parallelGraph mergeSimple 2 ⟨0, false⟩ =
      some (⟨0 + 3, false⟩,
        [(.One, ⟨0, false⟩), (.Two, ⟨0, false⟩), (.Three, ⟨0 + 2, false⟩)]) ∧
    lgInvoke parallelGraphJoin mergeSimple 2 ⟨0, false⟩ =
      some (⟨0 + 3, false⟩,
        [(.One, ⟨0, false⟩), (.Two, ⟨0, false⟩), (.Three, ⟨0 + 2, false⟩)]) :=
  parallel_graph_run 0 false 2 (by decide)

/-- Filling the batch slots in any schedule order produces the input-order
results, provided the schedule covers every input index (each slot is only
ever written with the result of its own input). -/
theorem batchSched_aux {S State Update : Type} [DecidableEq S]
    (g : GraphImpl S State Update) (merge : State → Update → State)
    (fuel : Nat) (states : List State) :
    ∀ (sched : List Nat) (slots : List (Option (Option (State × List (S × State))))),
      slots.length = states.length →
      (∀ j, j < states.length →
        j ∈ sched ∨ slots[j]? = (states.map (fun st => some (lgInvoke g merge fuel st)))[j]?) →
      sched.foldl
        (fun slots i =>
          match states[i]? with
          | none => slots
          | some st => slots.set i (some (lgInvoke g merge fuel st)))
        slots
        = states.map (fun st => some (lgInvoke g merge fuel st)) := by
  intro sched
  induction sched with
  | nil =>
    intro slots hlen hcov
    rw [List.foldl_nil]
    apply List.ext_getElem?
    intro j
    by_cases hj : j < states.length
    · simpa using (hcov j hj).resolve_left (by simp)
    · rw [List.getElem?_eq_none (by omega),
        List.getElem?_eq_none (by simp; omega)]
  | cons i rest ih =>
    intro slots hlen hcov
    rw [List.foldl_cons]
    cases hi : states[i]? with
    | none =>
      simp only [hi]
      apply ih slots hlen
      intro j hj
      rcases hcov j hj with hmem | heq
      · rcases List.mem_cons.mp hmem with rfl | hmem'
        · exact absurd hj (by simpa using List.getElem?_eq_none_iff.mp hi)
        · exact Or.inl hmem'
      · exact Or.inr heq
    | some st =>
      simp only [hi]
      apply ih _ (by simpa using hlen)
      intro j hj
      by_cases hji : j = i
      · subst hji
        right
        have hjlen : j < slots.length := by omega
        rw [List.getElem?_set_self hjlen, List.getElem?_map, hi]
        rfl
      · rcases hcov j hj with hmem | heq
        · rcases List.mem_cons.mp hmem with rfl | hmem'
          · exact absurd rfl hji
          · exact Or.inl hmem'
        · right
          rw [List.getElem?_set_ne (fun hh => hji hh.symm)]
          exact heq

/-- C8: batch returns the sequence of single-state invoke results, one per
input, in input order; async_batch returns the same sequence; and the
schedule-parameterized batch, which executes the runs in an arbitrary
internal completion order, also returns the input-order sequence for every
schedule that is a permutation of the input indices. -/
theorem batch_order_preservation {S State Update : Type} [DecidableEq S]
    (g : GraphImpl S State Update) (merge : State → Update → State)
    (fuel : Nat) (states : List State) (sched : List Nat)
    (hs : sched.Perm (List.range states.length)) :
    lgBatch g merge fuel states = states.map (lgInvoke g merge fuel) ∧
    lgAsyncBatch g merge fuel states = states.map (lgInvoke g merge fuel) ∧
    lgBatchScheduled g merge fuel states sched =
      states.map (fun st => some (lgInvoke g merge fuel st)) := by
  refine ⟨rfl, ?_, ?_⟩
  · unfold lgAsyncBatch lgAsyncInvoke lgInvoke
    simp [lgRunAsync_eq_lgRun]
  · unfold lgBatchScheduled
    apply batchSched_aux g merge fuel states sched
    · simp
    · intro j hj
      left
      exact (hs.mem_iff).mpr (List.mem_range.mpr hj)

/-- C8 witness: a three-element batch over the sequential test graph with
the internal completion order 2, 0, 1. -/
theorem batch_order_preservation_witness :
    ([2, 0, 1] : List Nat).Perm
      (List.range ([⟨0, false⟩, ⟨1, false⟩, ⟨2, true⟩] : List SimpleTestGraphState).length) ∧
    (lgBatch simpleGraph mergeSimple 3 [⟨0, false⟩, ⟨1, false⟩, ⟨2, true⟩] =
        ([⟨0, false⟩, ⟨1, false⟩, ⟨2, true⟩] : List SimpleTestGraphState).map
          (lgInvoke simpleGraph mergeSimple 3) ∧
      lgAsyncBatch simpleGraph mergeSimple 3 [⟨0, false⟩, ⟨1, false⟩, ⟨2, true⟩] =
        ([⟨0, false⟩, ⟨1, false⟩, ⟨2, true⟩] : List SimpleTestGraphState).map
          (lgInvoke simpleGraph mergeSimple 3) ∧
      lgBatchScheduled simpleGraph mergeSimple 3 [⟨0, false⟩, ⟨1, false⟩, ⟨2, true⟩] [2, 0, 1] =
        ([⟨0, false⟩, ⟨1, false⟩, ⟨2, true⟩] : List SimpleTestGraphState).map
          (fun st => some (lgInvoke simpleGraph mergeSimple 3 st))) :=
  ⟨by decide, batch_order_preservation simpleGraph mergeSimple 3 _ _ (by decide)⟩

end RagResume
